import Mathlib

/-!
Verification of the RCA rescue-vessel coverage-optimization system.

The development shallowly embeds the Python sources:
  - `Classes.py` (domain entities) as the id-based `Scenario` record,
  - `tidal_gen/calculate_comp_val.py` (objective evaluator),
  - `tidal_gen/generate_intervals.py` (tidal share consolidation),
  - `Solvers/gurobi_best_tidal.py`, `Solvers/gurobi_better_tidal.py`,
    `Solvers/gurobi_more_zones.py` (coverage model builders),
  - `data/DataHouse.py` (reachability generation).

Entities are referenced by their integer identifiers (the source's
monotonically issued `identifier` fields); machine floats are modelled as
exact rationals.
-/

namespace RCA

/-- Scenario data: the fields of `VesselType`, `Station`, `Zone` and
`Incident_Type` from `Classes.py`, with identifiers as naturals.
`allowed_ports v s` is the single vessel↔station relation kept consistent on
both sides by `Station.add_allowed_vessel`; `allowed_vessels i v` is
`Incident_Type.allowed_vessels`; `probability_by_zone i z` is the incident's
probability map with the source's `.get(zone, 0)` default; `reachable_from_by
z s v` is membership of `(station, vessel)` in `zone.reachable_from_by`;
`distance_to s z` is `station.position.distance_to(zone.position)` (great
circle, symmetric); `minimum_water_level s` is `Station.minimum_water_level`. -/
structure Scenario where
  vessels : List ℕ
  stations : List ℕ
  zones : List ℕ
  incidents : List ℕ
  amount : ℕ → ℕ
  speed : ℕ → ℚ
  reach : ℕ → ℚ
  allowed_ports : ℕ → ℕ → Bool
  allowed_vessels : ℕ → ℕ → Bool
  probability_by_zone : ℕ → ℕ → ℚ
  weight : ℕ → ℚ
  reachable_from_by : ℕ → ℕ → ℕ → Bool
  distance_to : ℕ → ℕ → ℚ
  minimum_water_level : ℕ → ℚ

/-- One entry of a joint share combination: a station identifier paired with
the identifiers of the vessels that fit there at that accessibility state
(the source's `(Station, frozenset[VesselType])` tuple). -/
abbrev SharePair : Type := ℕ × List ℕ

/-- A joint share combination: the source's
`frozenset[tuple[Station, frozenset[VesselType]]]`. -/
abbrev ShareCombo : Type := List SharePair

/-- The joint share distribution: combinations paired with their time
fraction (`dict[frozenset[...], float]`). -/
abbrev Shares : Type := List (ShareCombo × ℚ)

/-- Response-time candidate contributed by one `(cur_station, cur_vessels)`
entry of a share combination in `calculate_obj_value`
(`calculate_comp_val.py` lines 43-52).  Mirrors the source exactly: the
assigned vessel is looked up, skipped if absent, skipped if not permitted for
the incident, skipped if `(station, vessel)` cannot reach the zone, and
otherwise contributes `distance / speed`.  The pair's open vessel set
(`cur_vessels`, i.e. `p.2`) is unpacked but never consulted by the source,
hence it does not occur here. -/
def evalCandidate (sc : Scenario) (assignment : ℕ → Option ℕ) (zone incident : ℕ)
    (p : SharePair) : Option ℚ :=
  match assignment p.1 with
  | none => none
  | some v =>
    if sc.allowed_vessels incident v then
      if sc.reachable_from_by zone p.1 v then
        some (sc.distance_to p.1 zone / sc.speed v)
      else none
    else none

/-- Minimum response time over the eligible entries of a combination:
`curr_val` of `calculate_obj_value`, which starts at `+inf` and takes `min`
with each candidate; `none` plays the role of `float('inf')` (no eligible
responder). -/
def min_response_time (sc : Scenario) (assignment : ℕ → Option ℕ)
    (combo : ShareCombo) (zone incident : ℕ) : Option ℚ :=
  combo.foldl (fun acc p =>
    match evalCandidate sc assignment zone incident p with
    | none => acc
    | some t =>
      match acc with
      | none => some t
      | some m => some (min m t)) none

/-- Accumulated totals of `calculate_obj_value`: `val`, `unfullfilled`,
`unfilled_number` and `unfullfilled_weight` (source spellings kept). -/
structure EvalTotals where
  val : ℚ
  unfullfilled : ℚ
  unfilled_number : ℕ
  unfullfilled_weight : ℚ
deriving DecidableEq, Repr

/-- Update of the running totals for one `(share, zone, incident)` triple
(`calculate_comp_val.py` lines 40-58): triples with non-positive probability
are skipped; an unfulfilled triple adds the share to `unfullfilled`, one to
`unfilled_number` and `weight * probability` to `unfullfilled_weight`; a
fulfilled one adds `min_time * share * weight * probability` to `val`. -/
def eval_step (sc : Scenario) (assignment : ℕ → Option ℕ) (combo : ShareCombo)
    (share : ℚ) (zone incident : ℕ) (acc : EvalTotals) : EvalTotals :=
  if sc.probability_by_zone incident zone ≤ 0 then acc
  else
    match min_response_time sc assignment combo zone incident with
    | none =>
      { acc with
        unfullfilled := acc.unfullfilled + share
        unfilled_number := acc.unfilled_number + 1
        unfullfilled_weight := acc.unfullfilled_weight
          + sc.weight incident * sc.probability_by_zone incident zone }
    | some m =>
      { acc with
        val := acc.val + m * share * sc.weight incident
          * sc.probability_by_zone incident zone }

/-- Triple loop of `calculate_obj_value`: over the shares, then over
`product(zones, incidents)`. -/
def eval_totals (sc : Scenario) (assignment : ℕ → Option ℕ) (shares : Shares) :
    EvalTotals :=
  shares.foldl (fun acc cs =>
    sc.zones.foldl (fun acc z =>
      sc.incidents.foldl (fun acc i =>
        eval_step sc assignment cs.1 cs.2 z i acc) acc) acc)
    ⟨0, 0, 0, 0⟩

/-- Possible results of the evaluator: a finite objective value, `+infinity`,
or the verbose four-component breakdown returned under `fullinfo`. -/
inductive ObjValue where
  | finite (v : ℚ)
  | infinite
  | full (val unfullfilled : ℚ) (unfilled_number : ℕ) (unfullfilled_weight : ℚ)
deriving DecidableEq, Repr

/-- The solver-independent objective evaluator `calculate_obj_value`
(`calculate_comp_val.py`).  After accumulating over all triples it returns
the breakdown when `fullinfo` is set, `+infinity` when any unfulfilled mass
was accumulated, and the objective value otherwise (lines 66-71). -/
def calculate_obj_value (sc : Scenario) (assignment : ℕ → Option ℕ)
    (shares : Shares) (fullinfo : Bool) : ObjValue :=
  let t := eval_totals sc assignment shares
  if fullinfo then .full t.val t.unfullfilled t.unfilled_number t.unfullfilled_weight
  else if 0 < t.unfullfilled then .infinite
  else .finite t.val

/-- Objective contribution of a single `(share, zone, incident)` triple, as a
closed-form term (zero for skipped or unfulfilled triples). -/
def triple_val (sc : Scenario) (assignment : ℕ → Option ℕ) (combo : ShareCombo)
    (share : ℚ) (zone incident : ℕ) : ℚ :=
  if sc.probability_by_zone incident zone ≤ 0 then 0
  else
    match min_response_time sc assignment combo zone incident with
    | none => 0
    | some m => m * share * sc.weight incident * sc.probability_by_zone incident zone

/-- Unfulfilled share mass contributed by a single triple. -/
def triple_unfulfilled (sc : Scenario) (assignment : ℕ → Option ℕ)
    (combo : ShareCombo) (share : ℚ) (zone incident : ℕ) : ℚ :=
  if sc.probability_by_zone incident zone ≤ 0 then 0
  else
    match min_response_time sc assignment combo zone incident with
    | none => share
    | some _ => 0

/-- Unfulfilled incident count contributed by a single triple. -/
def triple_unfilled_number (sc : Scenario) (assignment : ℕ → Option ℕ)
    (combo : ShareCombo) (zone incident : ℕ) : ℕ :=
  if sc.probability_by_zone incident zone ≤ 0 then 0
  else
    match min_response_time sc assignment combo zone incident with
    | none => 1
    | some _ => 0

/-- Unfulfilled weight contributed by a single triple. -/
def triple_unfulfilled_weight (sc : Scenario) (assignment : ℕ → Option ℕ)
    (combo : ShareCombo) (zone incident : ℕ) : ℚ :=
  if sc.probability_by_zone incident zone ≤ 0 then 0
  else
    match min_response_time sc assignment combo zone incident with
    | none => sc.weight incident * sc.probability_by_zone incident zone
    | some _ => 0

/-- Sum of a rational-valued function over all `(share, zone, incident)`
triples of a scenario. -/
def tripleSum (sc : Scenario) (shares : Shares)
    (f : ShareCombo → ℚ → ℕ → ℕ → ℚ) : ℚ :=
  (shares.map (fun cs =>
    (sc.zones.map (fun z =>
      (sc.incidents.map (fun i => f cs.1 cs.2 z i)).sum)).sum)).sum

/-- Sum of a natural-valued function over all triples of a scenario. -/
def tripleSumN (sc : Scenario) (shares : Shares)
    (f : ShareCombo → ℚ → ℕ → ℕ → ℕ) : ℕ :=
  (shares.map (fun cs =>
    (sc.zones.map (fun z =>
      (sc.incidents.map (fun i => f cs.1 cs.2 z i)).sum)).sum)).sum

/-- Total objective excluding unfulfilled contributions. -/
def total_val (sc : Scenario) (assignment : ℕ → Option ℕ) (shares : Shares) : ℚ :=
  tripleSum sc shares (fun c s z i => triple_val sc assignment c s z i)

/-- Total unfulfilled share mass. -/
def total_unfullfilled (sc : Scenario) (assignment : ℕ → Option ℕ)
    (shares : Shares) : ℚ :=
  tripleSum sc shares (fun c s z i => triple_unfulfilled sc assignment c s z i)

/-- Total number of unfulfilled triples. -/
def total_unfilled_number (sc : Scenario) (assignment : ℕ → Option ℕ)
    (shares : Shares) : ℕ :=
  tripleSumN sc shares (fun c _ z i => triple_unfilled_number sc assignment c z i)

/-- Total unfulfilled weight. -/
def total_unfullfilled_weight (sc : Scenario) (assignment : ℕ → Option ℕ)
    (shares : Shares) : ℚ :=
  tripleSum sc shares (fun c _ z i => triple_unfulfilled_weight sc assignment c z i)

/-- Scenario used to exercise the evaluator's eligibility test: one station
(id 0), two vessel types (ids 0 and 1), one zone, one incident permitting
every vessel everywhere, distance 10 nm and speed 5 kn for every pair. -/
def c1_scenario : Scenario where
  vessels := [0, 1]
  stations := [0]
  zones := [0]
  incidents := [0]
  amount := fun _ => 1
  speed := fun _ => 5
  reach := fun _ => 100
  allowed_ports := fun _ _ => true
  allowed_vessels := fun _ _ => true
  probability_by_zone := fun _ _ => 1
  weight := fun _ => 1
  reachable_from_by := fun _ _ _ => true
  distance_to := fun _ _ => 10
  minimum_water_level := fun _ => 0

/-- Share combination opening station 0 for vessel 1 only. -/
def c1_combo : ShareCombo := [(0, [1])]

/-- Joint share distribution consisting of `c1_combo` alone, holding all of
the time. -/
def c1_shares : Shares := [(c1_combo, 1)]

/-- Assignment stationing vessel 0 (not the fitting vessel 1) at station 0. -/
def c1_assignment : ℕ → Option ℕ := fun s => if s = 0 then some 0 else none

/-- Dict accumulation of `consolidate_intervals` (`generate_intervals.py`
lines 205-211) for the per-pair dict `consolidated`, modelled as a
pointwise-updated total map from `(station, vessel)` to the accumulated
fraction: for every share `(key, value)`, for every `(station, vessels)` pair
of the combination, for every vessel of the pair, `value` is added at
`(station, vessel)` (`consolidated.get((station, vessel), 0) + value`). -/
def consolidate_loop (shares : Shares) : ℕ × ℕ → ℚ :=
  shares.foldl (fun m kv =>
    kv.1.foldl (fun m p =>
      p.2.foldl (fun m v =>
        fun q => if q = (p.1, v) then m q + kv.2 else m q) m) m)
    (fun _ => 0)

/-- Dict accumulation for `consolidated_by_station` in the same loop
(line 211): for every vessel of every pair, `value * vessel.amount` is added
at the pair's station. -/
def consolidate_by_station_loop (amount : ℕ → ℕ) (shares : Shares) : ℕ → ℚ :=
  shares.foldl (fun m kv =>
    kv.1.foldl (fun m p =>
      p.2.foldl (fun m v =>
        fun s => if s = p.1 then m s + kv.2 * (amount v : ℚ) else m s) m) m)
    (fun _ => 0)

/-- Final value of the loop variable `vessels` after the consolidation loop:
the statement `for station, vessels in key` on line 208 rebinds the
function's `vessels` list, so after the loop it holds the vessel set of the
last pair of the last iterated combination (or the original vessel list when
no pair was iterated). -/
def consolidate_shadowed_vessels (vessels : List ℕ) (shares : Shares) : List ℕ :=
  shares.foldl (fun acc kv => kv.1.foldl (fun _ p => p.2) acc) vessels

/-- The divisor `number_of_vessels = sum(vessel.amount for vessel in
vessels)` computed on line 213, which reads the shadowed `vessels`. -/
def consolidate_number_of_vessels (vessels : List ℕ) (amount : ℕ → ℕ)
    (shares : Shares) : ℕ :=
  ((consolidate_shadowed_vessels vessels shares).map amount).sum

/-- Per-station `minimum_water_level` set by `consolidate_intervals`
(lines 214-217): `max(min(1 - value / number_of_vessels, 1), 0)` for the
accumulated station value, with stations absent from the accumulation
receiving the default 1 (which this closed form reproduces, since their
accumulated value is 0). -/
def consolidate_station_threshold (vessels : List ℕ) (amount : ℕ → ℕ)
    (shares : Shares) (s : ℕ) : ℚ :=
  max (min (1 - consolidate_by_station_loop amount shares s
    / (consolidate_number_of_vessels vessels amount shares : ℚ)) 1) 0

/-- Final per-pair consolidated scalar (line 220):
`consolidated = {key: 1 - min(value, 1) for key, value in consolidated}`. -/
def consolidated_final (shares : Shares) (q : ℕ × ℕ) : ℚ :=
  1 - min (consolidate_loop shares q) 1

/-- Whether a joint combination opens the `(station, vessel)` pair `q`: some
entry has that station and contains that vessel. -/
def comboOpens (c : ShareCombo) (q : ℕ × ℕ) : Bool :=
  c.any (fun p => decide (p.1 = q.1) && decide (q.2 ∈ p.2))

/-- Sum of the joint-share fractions of all combinations in which the pair
`q` is open — the "fraction of time usable" of the specification. -/
def openFraction (shares : Shares) (q : ℕ × ℕ) : ℚ :=
  (shares.map (fun kv => if comboOpens kv.1 q then kv.2 else 0)).sum

/-- Share distribution opening `(station 0, vessel 0)` a quarter of the time
and `(station 1, vessel 0)` the rest. -/
def c2_shares : Shares := [([(0, [0])], 1/4), ([(1, [0])], 3/4)]

/-- Scenario vessel list used against the consolidation loop: vessel 0 with
fleet size 1 and vessel 1 with fleet size 2. -/
def c3_vessels : List ℕ := [0, 1]

/-- Fleet sizes for `c3_vessels`. -/
def c3_amount : ℕ → ℕ := fun v => if v = 0 then 1 else 2

/-- Share distribution whose last combination's last pair opens station 0
for vessel 0 only, so the shadowed `vessels` variable ends as `[0]`. -/
def c3_shares : Shares := [([(0, [0]), (1, [0, 1])], 1/2), ([(0, [0])], 1/2)]

/-- Normalisation step of `generate_intervals` (lines 135-136): grouped
occurrence counts are divided by the total timestamp count, `shares = {key:
value / total for key, value in shares.items()}`. -/
def normalize_shares (counts : List (ShareCombo × ℕ)) : Shares :=
  counts.map (fun kv => (kv.1, (kv.2 : ℚ) / ((counts.map Prod.snd).sum : ℚ)))

/-- Value of a binary variable: 1 when set, 0 otherwise. -/
def b2n (b : Bool) : ℕ := if b then 1 else 0

/-- Ordered duplicate-free insertion of a threshold value, realizing the
python `sorted(set(...))` used by the interval-based builders. -/
def insertThreshold (x : ℚ) : List ℚ → List ℚ
  | [] => [x]
  | y :: ys => if x < y then x :: y :: ys else if x = y then y :: ys else y :: insertThreshold x ys

/-- Sorted list of the distinct elements of a list (`sorted(set(l))`). -/
def sortedDedup (l : List ℚ) : List ℚ := l.foldr insertThreshold []

/-- Adjacent pairs of a list: `itertools.pairwise`, turning the sorted
threshold list into waterlevel intervals. -/
def intervalsOf : List ℚ → List (ℚ × ℚ)
  | x :: y :: rest => (x, y) :: intervalsOf (y :: rest)
  | _ => []

-- best-tidal -------------------------------------------------------------

/-- Eligibility of a y key `(station, shareIndex, vessel, zone, incident)` in
the Best-tidal builder (`gurobi_best_tidal.py` lines 33-47): the vessel is in
the combination entry for the station, the station is an allowed port of the
vessel, the vessel is permitted for the incident, the incident has positive
probability in the zone, and the pair reaches the zone. -/
def eligBest (sc : Scenario) (shares : Shares) (k s v z i : ℕ) : Bool :=
  (match shares[k]? with
   | some kv => kv.1.any (fun p => decide (p.1 = s) && decide (v ∈ p.2))
   | none => false)
  && sc.allowed_ports v s && sc.allowed_vessels i v
  && decide (0 < sc.probability_by_zone i z) && sc.reachable_from_by z s v

/-- Eligible `(station, vessel)` pairs of a Best-tidal coverage triple,
enumerated in the order of the variable-creation loops. -/
def eligPairsBest (sc : Scenario) (shares : Shares) (k z i : ℕ) : List (ℕ × ℕ) :=
  match shares[k]? with
  | none => []
  | some kv =>
    kv.1.flatMap (fun p =>
      (p.2.filter (fun v => sc.allowed_ports v p.1 && sc.allowed_vessels i v
        && decide (0 < sc.probability_by_zone i z) && sc.reachable_from_by z p.1 v)).map
        (fun v => (p.1, v)))

/-- One coverage equality constraint of the Best-tidal model: the y variables
selected by `y.select(*, shareIndex, *, zone, incident)` must sum to `rhs`. -/
structure CoverEntryBest where
  shareIndex : ℕ
  zone : ℕ
  incident : ℕ
  pairs : List (ℕ × ℕ)
  rhs : ℕ
deriving DecidableEq

/-- Coverage constraints added by `gurobi_best_tidal.py` lines 64-67: one
equality per `(shareIndex, zone, incident)` with positive probability,
added whether or not any eligible pair exists. -/
def coverageConstraintsBest (sc : Scenario) (shares : Shares) : List CoverEntryBest :=
  (List.range shares.length).flatMap (fun k =>
    sc.zones.flatMap (fun z =>
      (sc.incidents.filter (fun i => decide (0 < sc.probability_by_zone i z))).map
        (fun i => ⟨k, z, i, eligPairsBest sc shares k z i, 1⟩)))

/-- Number of set y variables among a coverage entry's eligible pairs. -/
def coverCountBest (y : ℕ → ℕ → ℕ → ℕ → ℕ → Bool) (e : CoverEntryBest) : ℕ :=
  (e.pairs.map (fun sv => b2n (y sv.1 e.shareIndex sv.2 e.zone e.incident))).sum

/-- Satisfaction of all Best-tidal coverage constraints. -/
def coverageSatBest (sc : Scenario) (shares : Shares)
    (y : ℕ → ℕ → ℕ → ℕ → ℕ → Bool) : Prop :=
  ∀ e ∈ coverageConstraintsBest sc shares, coverCountBest y e = e.rhs

/-- Number of set y variables referencing a `(station, vessel)` pair in the
Best-tidal model (`y.select(station, *, vessel, *, *)`). -/
def ySelCountBest (sc : Scenario) (shares : Shares) (y : ℕ → ℕ → ℕ → ℕ → ℕ → Bool)
    (s v : ℕ) : ℕ :=
  ((List.range shares.length).map (fun k =>
    (sc.zones.map (fun z =>
      (sc.incidents.map (fun i =>
        b2n (eligBest sc shares k s v z i && y s k v z i))).sum)).sum)).sum

/-- Number of existing y variables referencing a `(station, vessel)` pair in
the Best-tidal model (`len(y_select)`). -/
def numYBest (sc : Scenario) (shares : Shares) (s v : ℕ) : ℕ :=
  ((List.range shares.length).map (fun k =>
    (sc.zones.map (fun z =>
      (sc.incidents.map (fun i => b2n (eligBest sc shares k s v z i))).sum)).sum)).sum

/-- Fleet-cap constraints (`vessel_assignment_1`, identical in all three
builders): for each vessel type, the number of its set `x` variables over
its allowed ports is at most its fleet size. -/
def fleet_cap_ok (sc : Scenario) (x : ℕ → ℕ → Bool) : Prop :=
  ∀ v ∈ sc.vessels,
    ((sc.stations.filter (fun s => sc.allowed_ports v s)).map (fun s => b2n (x v s))).sum
      ≤ sc.amount v

/-- One-vessel-per-station constraints (`vessel_assignment_2`, identical in
all three builders): for each station, at most one set `x` variable over its
allowed vessels. -/
def one_vessel_ok (sc : Scenario) (x : ℕ → ℕ → Bool) : Prop :=
  ∀ s ∈ sc.stations,
    ((sc.vessels.filter (fun v => sc.allowed_ports v s)).map (fun v => b2n (x v s))).sum ≤ 1

/-- Consistency constraints of the Best-tidal model
(`vessel_assigned_if_used`): set y variables of a pair are bounded by
`len(y_select) * x[vessel, station]`. -/
def consistencyBest (sc : Scenario) (shares : Shares) (x : ℕ → ℕ → Bool)
    (y : ℕ → ℕ → ℕ → ℕ → ℕ → Bool) : Prop :=
  ∀ s ∈ sc.stations, ∀ v ∈ sc.vessels, sc.allowed_ports v s →
    ySelCountBest sc shares y s v ≤ numYBest sc shares s v * b2n (x v s)

/-- Feasibility for the Best-tidal model: all four constraint groups of
`gurobi_best_tidal.create_model`. -/
def feasibleBest (sc : Scenario) (shares : Shares) (x : ℕ → ℕ → Bool)
    (y : ℕ → ℕ → ℕ → ℕ → ℕ → Bool) : Prop :=
  fleet_cap_ok sc x ∧ one_vessel_ok sc x ∧ consistencyBest sc shares x y ∧
    coverageSatBest sc shares y

-- more-zones -------------------------------------------------------------

/-- Waterlevel intervals of the Many-zones builder (`gurobi_more_zones.py`
lines 33-36): `{0, 1}` together with the station thresholds, sorted and
paired into adjacent intervals. -/
def waterlevelsMore (sc : Scenario) : List (ℚ × ℚ) :=
  intervalsOf (sortedDedup (0 :: 1 :: sc.stations.map sc.minimum_water_level))

/-- Eligibility of a y key in the Many-zones builder (lines 39-42); `a` is
the interval lower bound `waterlevel[0]`. -/
def eligMore (sc : Scenario) (a : ℚ) (s v z i : ℕ) : Bool :=
  sc.allowed_vessels i v && sc.allowed_ports v s
    && decide (sc.minimum_water_level s ≤ a)
    && decide (0 < sc.probability_by_zone i z) && sc.reachable_from_by z s v

/-- Eligible `(station, vessel)` pairs of a Many-zones coverage triple. -/
def eligPairsMore (sc : Scenario) (a : ℚ) (z i : ℕ) : List (ℕ × ℕ) :=
  sc.stations.flatMap (fun s =>
    (sc.vessels.filter (fun v => eligMore sc a s v z i)).map (fun v => (s, v)))

/-- One coverage equality constraint of the Many-zones model, keyed by the
waterlevel interval as in `y.select(*, waterlevel[0], *, zone, incident)`. -/
structure CoverEntryMore where
  level : ℚ × ℚ
  zone : ℕ
  incident : ℕ
  pairs : List (ℕ × ℕ)
  rhs : ℕ
deriving DecidableEq

/-- Coverage constraints added by `gurobi_more_zones.py` lines 67-70: one
equality per `(interval, zone, incident)` with positive probability, added
whether or not any eligible pair exists. -/
def coverageConstraintsMore (sc : Scenario) : List CoverEntryMore :=
  (waterlevelsMore sc).flatMap (fun w =>
    sc.zones.flatMap (fun z =>
      (sc.incidents.filter (fun i => decide (0 < sc.probability_by_zone i z))).map
        (fun i => ⟨w, z, i, eligPairsMore sc w.1 z i, 1⟩)))

/-- Number of set y variables among a Many-zones coverage entry's pairs. -/
def coverCountMore (y : ℕ → ℚ → ℕ → ℕ → ℕ → Bool) (e : CoverEntryMore) : ℕ :=
  (e.pairs.map (fun sv => b2n (y sv.1 e.level.1 sv.2 e.zone e.incident))).sum

/-- Satisfaction of all Many-zones coverage constraints. -/
def coverageSatMore (sc : Scenario) (y : ℕ → ℚ → ℕ → ℕ → ℕ → Bool) : Prop :=
  ∀ e ∈ coverageConstraintsMore sc, coverCountMore y e = e.rhs

/-- Number of set y variables referencing a pair in the Many-zones model. -/
def ySelCountMore (sc : Scenario) (y : ℕ → ℚ → ℕ → ℕ → ℕ → Bool) (s v : ℕ) : ℕ :=
  ((waterlevelsMore sc).map (fun w =>
    (sc.zones.map (fun z =>
      (sc.incidents.map (fun i =>
        b2n (eligMore sc w.1 s v z i && y s w.1 v z i))).sum)).sum)).sum

/-- Number of existing y variables referencing a pair in the Many-zones
model. -/
def numYMore (sc : Scenario) (s v : ℕ) : ℕ :=
  ((waterlevelsMore sc).map (fun w =>
    (sc.zones.map (fun z =>
      (sc.incidents.map (fun i => b2n (eligMore sc w.1 s v z i))).sum)).sum)).sum

/-- Consistency constraints of the Many-zones model. -/
def consistencyMore (sc : Scenario) (x : ℕ → ℕ → Bool)
    (y : ℕ → ℚ → ℕ → ℕ → ℕ → Bool) : Prop :=
  ∀ s ∈ sc.stations, ∀ v ∈ sc.vessels, sc.allowed_ports v s →
    ySelCountMore sc y s v ≤ numYMore sc s v * b2n (x v s)

/-- Feasibility for the Many-zones model: all four constraint groups of
`gurobi_more_zones.create_model`. -/
def feasibleMore (sc : Scenario) (x : ℕ → ℕ → Bool)
    (y : ℕ → ℚ → ℕ → ℕ → ℕ → Bool) : Prop :=
  fleet_cap_ok sc x ∧ one_vessel_ok sc x ∧ consistencyMore sc x y ∧ coverageSatMore sc y

-- better-tidal -----------------------------------------------------------

/-- Consolidated share dict fed to the Better-tidal builder: `(station,
vessel)` pairs with their scalar value. -/
abbrev ConsShares : Type := List ((ℕ × ℕ) × ℚ)

/-- Pairs opened at an interval with lower bound `a`
(`gurobi_better_tidal.py` lines 35-39): those whose consolidated value is at
most `a`. -/
def openedPairs (cons : ConsShares) (a : ℚ) : List (ℕ × ℕ) :=
  (cons.filter (fun e => decide (e.2 ≤ a))).map Prod.fst

/-- Eligibility of a y key in the Better-tidal builder (lines 42-47); `a` is
the interval lower bound. -/
def eligBetter (sc : Scenario) (cons : ConsShares) (a : ℚ) (s v z i : ℕ) : Bool :=
  sc.allowed_vessels i v && sc.allowed_ports v s
    && decide ((s, v) ∈ openedPairs cons a)
    && decide (0 < sc.probability_by_zone i z) && sc.reachable_from_by z s v

/-- Threshold set of the Better-tidal builder (line 33): the consolidated
values together with `{0, 1}`, sorted and deduplicated. -/
def betterThresholds (cons : ConsShares) : List ℚ :=
  sortedDedup (0 :: 1 :: cons.map Prod.snd)

/-- Station-vessel pairs of a scenario in iteration order. -/
def stationsVessels (sc : Scenario) : List (ℕ × ℕ) :=
  sc.stations.flatMap (fun s => sc.vessels.map (fun v => (s, v)))

/-- Zone-incident pairs of a scenario in iteration order. -/
def zonesIncidents (sc : Scenario) : List (ℕ × ℕ) :=
  sc.zones.flatMap (fun z => sc.incidents.map (fun i => (z, i)))

/-- All `(station, vessel, zone, incident)` keys of the Better-tidal model
for one interval. -/
def allKeysBetter (sc : Scenario) : List ((ℕ × ℕ) × (ℕ × ℕ)) :=
  (stationsVessels sc).flatMap (fun sv => (zonesIncidents sc).map (fun zi => (sv, zi)))

/-- Number of set y variables of one Better-tidal coverage triple at an
interval with lower bound `a`. -/
def coverCountBetter (sc : Scenario) (cons : ConsShares) (a : ℚ)
    (yk : ℕ → ℕ → ℕ → ℕ → Bool) (z i : ℕ) : ℕ :=
  ((stationsVessels sc).map (fun sv =>
    b2n (eligBetter sc cons a sv.1 sv.2 z i && yk sv.1 sv.2 z i))).sum

/-- Coverage constraints of the Better-tidal model over an explicit interval
list `W` with per-interval variable maps `ys` (lines 72-75): every positive
triple has exactly one set eligible variable. -/
def coverageBetterW (sc : Scenario) (cons : ConsShares) (W : List (ℚ × ℚ))
    (ys : List (ℕ → ℕ → ℕ → ℕ → Bool)) : Prop :=
  ∀ wy ∈ W.zip ys, ∀ z ∈ sc.zones, ∀ i ∈ sc.incidents,
    0 < sc.probability_by_zone i z → coverCountBetter sc cons wy.1.1 wy.2 z i = 1

/-- Set y variables of a pair within one interval of the Better-tidal model. -/
def pairCountBetter (sc : Scenario) (cons : ConsShares) (a : ℚ)
    (yk : ℕ → ℕ → ℕ → ℕ → Bool) (s v : ℕ) : ℕ :=
  ((zonesIncidents sc).map (fun zi =>
    b2n (eligBetter sc cons a s v zi.1 zi.2 && yk s v zi.1 zi.2))).sum

/-- Existing y variables of a pair within one interval of the Better-tidal
model. -/
def pairVarsBetter (sc : Scenario) (cons : ConsShares) (a : ℚ) (s v : ℕ) : ℕ :=
  ((zonesIncidents sc).map (fun zi =>
    b2n (eligBetter sc cons a s v zi.1 zi.2))).sum

/-- Set y variables of a pair over the whole Better-tidal model
(`y.select(station, *, vessel, *, *)`). -/
def ySelBetterW (sc : Scenario) (cons : ConsShares) (W : List (ℚ × ℚ))
    (ys : List (ℕ → ℕ → ℕ → ℕ → Bool)) (s v : ℕ) : ℕ :=
  ((W.zip ys).map (fun wy => pairCountBetter sc cons wy.1.1 wy.2 s v)).sum

/-- Existing y variables of a pair over the whole Better-tidal model
(`len(y_select)`). -/
def numYBetterW (sc : Scenario) (cons : ConsShares) (W : List (ℚ × ℚ)) (s v : ℕ) : ℕ :=
  (W.map (fun w => pairVarsBetter sc cons w.1 s v)).sum

/-- Consistency constraints of the Better-tidal model. -/
def consistencyBetterW (sc : Scenario) (cons : ConsShares) (W : List (ℚ × ℚ))
    (ys : List (ℕ → ℕ → ℕ → ℕ → Bool)) (x : ℕ → ℕ → Bool) : Prop :=
  ∀ s ∈ sc.stations, ∀ v ∈ sc.vessels, sc.allowed_ports v s →
    ySelBetterW sc cons W ys s v ≤ numYBetterW sc cons W s v * b2n (x v s)

/-- Feasibility for the Better-tidal model over an explicit interval list:
matching lengths plus all four constraint groups of
`gurobi_better_tidal.create_model`. -/
def feasibleBetterW (sc : Scenario) (cons : ConsShares) (W : List (ℚ × ℚ))
    (x : ℕ → ℕ → Bool) (ys : List (ℕ → ℕ → ℕ → ℕ → Bool)) : Prop :=
  ys.length = W.length ∧ fleet_cap_ok sc x ∧ one_vessel_ok sc x ∧
    consistencyBetterW sc cons W ys x ∧ coverageBetterW sc cons W ys

/-- Feasibility for the Better-tidal model as built, with intervals derived
from the consolidated values. -/
def feasibleBetter (sc : Scenario) (cons : ConsShares) (x : ℕ → ℕ → Bool)
    (ys : List (ℕ → ℕ → ℕ → ℕ → Bool)) : Prop :=
  feasibleBetterW sc cons (intervalsOf (betterThresholds cons)) x ys

/-- Objective contribution of one interval of the Better-tidal model: each
set eligible variable contributes `probability * (upper - lower) * distance /
speed * weight` (lines 52-55). -/
def objBetterTerm (sc : Scenario) (cons : ConsShares) (w : ℚ × ℚ)
    (yk : ℕ → ℕ → ℕ → ℕ → Bool) : ℚ :=
  ((allKeysBetter sc).map (fun k =>
    if eligBetter sc cons w.1 k.1.1 k.1.2 k.2.1 k.2.2 && yk k.1.1 k.1.2 k.2.1 k.2.2 then
      sc.probability_by_zone k.2.2 k.2.1 * (w.2 - w.1)
        * sc.distance_to k.1.1 k.2.1 / sc.speed k.1.2 * sc.weight k.2.2
    else 0)).sum

/-- Objective of the Better-tidal model over an explicit interval list. -/
def objBetterW (sc : Scenario) (cons : ConsShares) (W : List (ℚ × ℚ))
    (ys : List (ℕ → ℕ → ℕ → ℕ → Bool)) : ℚ :=
  ((W.zip ys).map (fun wy => objBetterTerm sc cons wy.1 wy.2)).sum

/-- Fleet-cap property of an assignment: per vessel type the number of
stations it is placed at (among its allowed ports) is at most its fleet
size, and per station at most one vessel type is placed. -/
def assignment_within_bounds (sc : Scenario) (x : ℕ → ℕ → Bool) : Prop :=
  (∀ v ∈ sc.vessels,
    (sc.stations.filter (fun s => sc.allowed_ports v s && x v s)).length ≤ sc.amount v) ∧
  (∀ s ∈ sc.stations,
    (sc.vessels.filter (fun v => sc.allowed_ports v s && x v s)).length ≤ 1)

/-- Empty scenario, feasible for every builder with the all-false solution. -/
def sc_empty : Scenario where
  vessels := []
  stations := []
  zones := []
  incidents := []
  amount := fun _ => 0
  speed := fun _ => 1
  reach := fun _ => 0
  allowed_ports := fun _ _ => false
  allowed_vessels := fun _ _ => false
  probability_by_zone := fun _ _ => 0
  weight := fun _ => 0
  reachable_from_by := fun _ _ _ => false
  distance_to := fun _ _ => 0
  minimum_water_level := fun _ => 0


/-- Scenario with a positive-probability `(zone 0, incident 0)` but no
stations or vessels, so no coverage triple has an eligible pair. -/
def sc_c4 : Scenario where
  vessels := []
  stations := []
  zones := [0]
  incidents := [0]
  amount := fun _ => 0
  speed := fun _ => 1
  reach := fun _ => 0
  allowed_ports := fun _ _ => false
  allowed_vessels := fun _ _ => false
  probability_by_zone := fun _ _ => 1
  weight := fun _ => 1
  reachable_from_by := fun _ _ _ => false
  distance_to := fun _ _ => 0
  minimum_water_level := fun _ => 0


/-- One empty joint combination holding all of the time. -/
def shares_c4 : Shares := [([], 1)]

/-- Reachability relation produced by `DataHouse.reachable_for_zones`
(`DataHouse.py` lines 143-152): the pair `(station, vessel)` is added to a
zone's `reachable_from_by` exactly when the great-circle distance between
zone and station is at most `vessel.reach / 2`. -/
def reachable_for_zones (sc : Scenario) : ℕ → ℕ → ℕ → Bool :=
  fun z s v => decide (sc.distance_to s z ≤ sc.reach v / 2)

/-- Scenario whose single vessel type has the reach sentinel `-1`
(`UniqueVesselType.from_json` default when no range information exists) and
whose reachability relation is the one `reachable_for_zones` generates. -/
def sc_c10 : Scenario where
  vessels := [0]
  stations := [0]
  zones := [0]
  incidents := [0]
  amount := fun _ => 1
  speed := fun _ => 10
  reach := fun _ => -1
  allowed_ports := fun _ _ => true
  allowed_vessels := fun _ _ => true
  probability_by_zone := fun _ _ => 1
  weight := fun _ => 1
  reachable_from_by := fun _ _ _ => false
  distance_to := fun _ _ => 5
  minimum_water_level := fun _ => 0

/-- One reference tidal gauge station of `generate_intervals`: identifier,
draft depth (`station.depth`), gauge identifiers sorted by distance
(`station.levels`) and the distance to each gauge. -/
structure TStation where
  identifier : ℕ
  depth : ℚ
  levels : List ℕ
  dist : ℕ → ℚ

/-- Gauges used for a station at one timestamp (`generate_intervals.py`
lines 112-117): the first three of its distance-sorted gauges that carry a
reading. -/
def usedLevels (st : TStation) (reading : ℕ → Option ℚ) : List ℕ :=
  (st.levels.filter (fun l => (reading l).isSome)).take 3

/-- Interpolated station water level minus draft clearance (lines 118-124):
inverse-distance-weighted average over the used gauges, minus
`depth * 100`; `none` when no gauge has a reading (the `continue` branch).
Where the source would divide by zero (a single used gauge at distance equal
to the total), rational division yields 0 instead of raising. -/
def station_water_level (st : TStation) (reading : ℕ → Option ℚ) : Option ℚ :=
  let used := usedLevels st reading
  if used.isEmpty then none
  else
    let total := (used.map st.dist).sum
    some ((used.map (fun l => ((reading l).getD 0) * (total - st.dist l))).sum
      / (used.map (fun l => total - st.dist l)).sum - st.depth * 100)

/-- Ordered insertion used to model python `sorted` on identifiers. -/
def insertNat (x : ℕ) : List ℕ → List ℕ
  | [] => [x]
  | y :: ys => if x ≤ y then x :: y :: ys else y :: insertNat x ys

/-- Sorted copy of an identifier list (`tuple(sorted(...))`). -/
def sortNat (l : List ℕ) : List ℕ := l.foldr insertNat []

/-- Ordered insertion of a share pair by station identifier. -/
def insertPair (x : SharePair) : ShareCombo → ShareCombo
  | [] => [x]
  | y :: ys => if x.1 ≤ y.1 then x :: y :: ys else y :: insertPair x ys

/-- Combination sorted by station identifier
(`sorted(..., key=lambda x: x[0])`). -/
def sortByFst (l : ShareCombo) : ShareCombo := l.foldr insertPair []

/-- Combination of open `(station, fitting vessels)` pairs at one timestamp
(lines 110-128): a station contributes when it has a computed water level and
at least one vessel whose `draught * 100` is strictly below it. -/
def openedAt (stations : List TStation) (vessels : List (ℕ × ℚ))
    (reading : ℕ → Option ℚ) : ShareCombo :=
  stations.filterMap (fun st =>
    match station_water_level st reading with
    | none => none
    | some wl =>
      let fits := (vessels.filter (fun v => decide (v.2 * 100 < wl))).map Prod.fst
      if fits.isEmpty then none else some (st.identifier, sortNat fits))

/-- Dict-increment of a combination's occurrence count
(`shares[key] = shares.get(key, 0) + 1`). -/
def bump : List (ShareCombo × ℕ) → ShareCombo → List (ShareCombo × ℕ)
  | [], k => [(k, 1)]
  | (k', n) :: rest, k =>
    if k' = k then (k', n + 1) :: rest else (k', n) :: bump rest k

/-- Timestamp-scanning loop of `generate_intervals` (lines 94-133): each
processed timestamp either raises (when no station opens at all) or has its
sorted combination counted; reaching the end returns the grouped counts. -/
def generate_intervals_loop (stations : List TStation) (vessels : List (ℕ × ℚ)) :
    List (ℕ → Option ℚ) → ℕ → List (ShareCombo × ℕ) →
      Except String (List (ShareCombo × ℕ))
  | [], _, acc => .ok acc
  | t :: rest, line, acc =>
    let opened := openedAt stations vessels t
    if opened.isEmpty then
      .error ("No stations opened at line " ++ toString line ++ ", skipping")
    else generate_intervals_loop stations vessels rest (line + 1)
      (bump acc (sortByFst opened))

/-- Total number of grouped timestamps in a count dict. -/
def totalCount (m : List (ShareCombo × ℕ)) : ℕ := (m.map Prod.snd).sum

/-- Gauge setup for the C9 witness: one station with two gauges at
distance 1. -/
def stations_c9 : List TStation := [⟨0, 0, [0, 1], fun _ => 1⟩]

/-- Single vessel with draught 0.5 m. -/
def vessels_c9 : List (ℕ × ℚ) := [(0, 1/2)]

/-- One timestamp at which every gauge reads 100 cm. -/
def ts_c9 : List (ℕ → Option ℚ) := [fun _ => some 100]

/-- One-station, one-vessel scenario in which every pair is allowed,
permitted and reachable. -/
def sc_c8 : Scenario where
  vessels := [0]
  stations := [0]
  zones := [0]
  incidents := [0]
  amount := fun _ => 1
  speed := fun _ => 10
  reach := fun _ => 100
  allowed_ports := fun _ _ => true
  allowed_vessels := fun _ _ => true
  probability_by_zone := fun _ _ => 1
  weight := fun _ => 1
  reachable_from_by := fun _ _ _ => true
  distance_to := fun _ _ => 10
  minimum_water_level := fun _ => 0

/-- Consolidated share dict opening the single pair at every interval. -/
def cons_c8 : ConsShares := [((0, 0), 0)]

/-! ### Theorems -/

/-- Update performed by `eval_step` written as a componentwise addition of
the per-triple contributions. -/
lemma eval_step_eq (sc : Scenario) (assignment : ℕ → Option ℕ) (combo : ShareCombo)
    (share : ℚ) (z i : ℕ) (acc : EvalTotals) :
    eval_step sc assignment combo share z i acc =
      ⟨acc.val + triple_val sc assignment combo share z i,
       acc.unfullfilled + triple_unfulfilled sc assignment combo share z i,
       acc.unfilled_number + triple_unfilled_number sc assignment combo z i,
       acc.unfullfilled_weight + triple_unfulfilled_weight sc assignment combo z i⟩ := by
  unfold eval_step triple_val triple_unfulfilled triple_unfilled_number triple_unfulfilled_weight
  split
  · simp
  · cases h : min_response_time sc assignment combo z i <;> simp [h]

/-- Folding a componentwise-additive step over a list accumulates the sums of
the componentwise contributions. -/
lemma foldl_totals {α : Type} (l : List α) (step : EvalTotals → α → EvalTotals)
    (f g : α → ℚ) (n : α → ℕ) (w : α → ℚ)
    (hstep : ∀ acc x, step acc x =
      ⟨acc.val + f x, acc.unfullfilled + g x, acc.unfilled_number + n x,
       acc.unfullfilled_weight + w x⟩)
    (acc : EvalTotals) :
    l.foldl step acc =
      ⟨acc.val + (l.map f).sum, acc.unfullfilled + (l.map g).sum,
       acc.unfilled_number + (l.map n).sum, acc.unfullfilled_weight + (l.map w).sum⟩ := by
  induction l generalizing acc with
  | nil => simp
  | cons x xs ih => simp [List.foldl_cons, hstep, ih, add_assoc]

/-- Totals accumulated by the evaluator's triple loop equal the closed-form
triple sums. -/
lemma eval_totals_eq (sc : Scenario) (assignment : ℕ → Option ℕ) (shares : Shares) :
    eval_totals sc assignment shares =
      ⟨total_val sc assignment shares, total_unfullfilled sc assignment shares,
       total_unfilled_number sc assignment shares,
       total_unfullfilled_weight sc assignment shares⟩ := by
  unfold eval_totals
  rw [foldl_totals _ _
    (fun cs => (sc.zones.map (fun z => (sc.incidents.map (fun i =>
      triple_val sc assignment cs.1 cs.2 z i)).sum)).sum)
    (fun cs => (sc.zones.map (fun z => (sc.incidents.map (fun i =>
      triple_unfulfilled sc assignment cs.1 cs.2 z i)).sum)).sum)
    (fun cs => (sc.zones.map (fun z => (sc.incidents.map (fun i =>
      triple_unfilled_number sc assignment cs.1 z i)).sum)).sum)
    (fun cs => (sc.zones.map (fun z => (sc.incidents.map (fun i =>
      triple_unfulfilled_weight sc assignment cs.1 z i)).sum)).sum)]
  · simp [total_val, total_unfullfilled, total_unfilled_number, total_unfullfilled_weight,
      tripleSum, tripleSumN]
  · intro acc cs
    rw [foldl_totals _ _
      (fun z => (sc.incidents.map (fun i => triple_val sc assignment cs.1 cs.2 z i)).sum)
      (fun z => (sc.incidents.map (fun i => triple_unfulfilled sc assignment cs.1 cs.2 z i)).sum)
      (fun z => (sc.incidents.map (fun i => triple_unfilled_number sc assignment cs.1 z i)).sum)
      (fun z => (sc.incidents.map (fun i => triple_unfulfilled_weight sc assignment cs.1 z i)).sum)]
    intro acc z
    rw [foldl_totals _ _
      (fun i => triple_val sc assignment cs.1 cs.2 z i)
      (fun i => triple_unfulfilled sc assignment cs.1 cs.2 z i)
      (fun i => triple_unfilled_number sc assignment cs.1 z i)
      (fun i => triple_unfulfilled_weight sc assignment cs.1 z i)]
    intro acc i
    exact eval_step_eq sc assignment cs.1 cs.2 z i acc

/-- C5: `calculate_obj_value` returns `+infinity` whenever the accumulated
unfulfilled share mass is positive and `fullinfo` is false; with `fullinfo`
true it returns the four-component breakdown (objective excluding unfulfilled
contributions, unfulfilled share mass, unfulfilled incident count,
unfulfilled weight); with no unfulfilled mass and `fullinfo` false it returns
the accumulated objective value.  The function is total on `ObjValue`, so
unfulfilled mass is propagated as data and never as an exception. -/
theorem c5_calculate_obj_value_result_protocol (sc : Scenario)
    (assignment : ℕ → Option ℕ) (shares : Shares) (fullinfo : Bool) :
    calculate_obj_value sc assignment shares fullinfo =
      if fullinfo then
        ObjValue.full (total_val sc assignment shares)
          (total_unfullfilled sc assignment shares)
          (total_unfilled_number sc assignment shares)
          (total_unfullfilled_weight sc assignment shares)
      else if 0 < total_unfullfilled sc assignment shares then ObjValue.infinite
      else ObjValue.finite (total_val sc assignment shares) := by
  unfold calculate_obj_value
  rw [eval_totals_eq]

/-- C1: in `c1_shares` station 0 is open for vessel 1 only, while the
assignment stations vessel 0 there; vessel 0 is permitted for the incident
and can reach the zone but does not belong to the pair's open vessel set,
so per the claim no eligible pair exists and the evaluator should report the
triple as unfulfilled (`+infinity`, breakdown `(0, 1, 1, 1)`).  The source's
`calculate_obj_value` never consults the pair's open vessel set and instead
counts vessel 0 as a responder, returning the finite objective
`10 / 5 * 1 * 1 * 1 = 2` with zero unfulfilled mass. -/
theorem c1_evaluator_ignores_open_vessel_set :
    calculate_obj_value c1_scenario c1_assignment c1_shares false = ObjValue.finite 2 ∧
    calculate_obj_value c1_scenario c1_assignment c1_shares true = ObjValue.full 2 0 0 0 ∧
    (∀ p ∈ c1_combo, c1_assignment p.1 = some 0 ∧ p.2.contains 0 = false) := by
  refine ⟨?_, ?_, ?_⟩
  · norm_num [calculate_obj_value, eval_totals, eval_step, min_response_time, evalCandidate,
      c1_scenario, c1_shares, c1_combo, c1_assignment]
  · norm_num [calculate_obj_value, eval_totals, eval_step, min_response_time, evalCandidate,
      c1_scenario, c1_shares, c1_combo, c1_assignment]
  · intro p hp
    simp only [c1_combo, List.mem_singleton] at hp
    subst hp
    refine ⟨rfl, rfl⟩

/-- Folding a pointwise-additive map update over a list yields, at every key,
the initial value plus the sum of the per-element contributions at that
key. -/
lemma foldl_pointwise_add {α κ : Type} (l : List α) (step : (κ → ℚ) → α → (κ → ℚ))
    (c : α → κ → ℚ) (hstep : ∀ m x k, step m x k = m k + c x k) (m : κ → ℚ) (k : κ) :
    (l.foldl step m) k = m k + (l.map (fun x => c x k)).sum := by
  induction l generalizing m with
  | nil => simp
  | cons x xs ih =>
    simp only [List.foldl_cons, List.map_cons, List.sum_cons]
    rw [ih]
    have := hstep m x k
    rw [this]
    ring

/-- Closed form of the per-pair consolidation dict: the triple sum of the
share value over every occurrence of the pair in a combination. -/
lemma consolidate_loop_eq (shares : Shares) (q : ℕ × ℕ) :
    consolidate_loop shares q =
      (shares.map (fun kv =>
        (kv.1.map (fun p =>
          (p.2.map (fun v => if q = (p.1, v) then (kv.2 : ℚ) else 0)).sum)).sum)).sum := by
  unfold consolidate_loop
  rw [foldl_pointwise_add _ _
    (fun kv k => (kv.1.map (fun p =>
      (p.2.map (fun v => if k = (p.1, v) then (kv.2 : ℚ) else 0)).sum)).sum)]
  · simp
  · intro m kv k
    rw [foldl_pointwise_add _ _
      (fun p k => (p.2.map (fun v => if k = (p.1, v) then (kv.2 : ℚ) else 0)).sum)]
    intro m p k
    rw [foldl_pointwise_add _ _ (fun v k => if k = (p.1, v) then (kv.2 : ℚ) else 0)]
    intro m v k
    split <;> simp

/-- Closed form of the per-station consolidation dict. -/
lemma consolidate_by_station_loop_eq (amount : ℕ → ℕ) (shares : Shares) (s : ℕ) :
    consolidate_by_station_loop amount shares s =
      (shares.map (fun kv =>
        (kv.1.map (fun p =>
          (p.2.map (fun v => if s = p.1 then kv.2 * (amount v : ℚ) else 0)).sum)).sum)).sum := by
  unfold consolidate_by_station_loop
  rw [foldl_pointwise_add _ _
    (fun kv k => (kv.1.map (fun p =>
      (p.2.map (fun v => if k = p.1 then kv.2 * (amount v : ℚ) else 0)).sum)).sum)]
  · simp
  · intro m kv k
    rw [foldl_pointwise_add _ _
      (fun p k => (p.2.map (fun v => if k = p.1 then kv.2 * (amount v : ℚ) else 0)).sum)]
    intro m p k
    rw [foldl_pointwise_add _ _ (fun v k => if k = p.1 then kv.2 * (amount v : ℚ) else 0)]
    intro m v k
    split <;> simp

/-- Sum of an indicator over a duplicate-free vessel list collapses to a
membership test. -/
lemma sum_if_pair_mem (vs : List ℕ) (s : ℕ) (q : ℕ × ℕ) (value : ℚ) (h : vs.Nodup)
    (hs : q.1 = s) :
    (vs.map (fun v => if q = (s, v) then value else 0)).sum =
      if q.2 ∈ vs then value else 0 := by
  induction vs with
  | nil => simp
  | cons v vs ih =>
    rcases List.nodup_cons.mp h with ⟨hv, hvs⟩
    simp only [List.map_cons, List.sum_cons, List.mem_cons]
    by_cases h2 : q.2 = v
    · have hq : q = (s, v) := Prod.ext_iff.mpr ⟨hs, h2⟩
      have hnm : q.2 ∉ vs := h2 ▸ hv
      have hrest : (vs.map (fun w => if q = (s, w) then value else 0)).sum = 0 := by
        apply List.sum_eq_zero
        intro x hx
        rcases List.mem_map.mp hx with ⟨w, hw, rfl⟩
        have hne : q ≠ (s, w) := by
          intro he
          exact hnm (by rw [show q.2 = w from by rw [he]]; exact hw)
        simp [hne]
      rw [hrest, if_pos hq, if_pos (Or.inl h2)]
      ring
    · have hq : q ≠ (s, v) := fun he => h2 (by rw [he])
      rw [if_neg hq, ih hvs]
      by_cases hm : q.2 ∈ vs
      · rw [if_pos hm, if_pos (Or.inr hm)]
        ring
      · rw [if_neg hm, if_neg ?_]
        · ring
        · rintro (h' | h')
          · exact h2 h'
          · exact hm h'

/-- Combinations not mentioning the pair's station contribute nothing and do
not open the pair. -/
lemma combo_sum_zero (combo : ShareCombo) (q : ℕ × ℕ) (value : ℚ)
    (h : q.1 ∉ combo.map Prod.fst) :
    (combo.map (fun p => (p.2.map (fun v =>
      if q = (p.1, v) then value else 0)).sum)).sum = 0 ∧ comboOpens combo q = false := by
  constructor
  · apply List.sum_eq_zero
    intro x hx
    rcases List.mem_map.mp hx with ⟨p, hp, rfl⟩
    apply List.sum_eq_zero
    intro y hy
    rcases List.mem_map.mp hy with ⟨v, hv, rfl⟩
    have hne : q ≠ (p.1, v) := by
      intro he
      exact h (List.mem_map.mpr ⟨p, hp, by rw [he]⟩)
    simp [hne]
  · rw [comboOpens]
    apply List.any_eq_false.mpr
    intro p hp
    have hne : p.1 ≠ q.1 := by
      intro he
      exact h (List.mem_map.mpr ⟨p, hp, he⟩)
    simp [hne]

/-- For a combination with duplicate-free stations and vessel sets, the
accumulated contribution of a pair equals the share value exactly when the
combination opens the pair. -/
lemma combo_sum_eq_open (combo : ShareCombo) (q : ℕ × ℕ) (value : ℚ)
    (hst : (combo.map Prod.fst).Nodup) (hv : ∀ p ∈ combo, p.2.Nodup) :
    (combo.map (fun p => (p.2.map (fun v =>
      if q = (p.1, v) then value else 0)).sum)).sum =
      if comboOpens combo q then value else 0 := by
  induction combo with
  | nil => simp [comboOpens]
  | cons p rest ih =>
    rcases List.nodup_cons.mp hst with ⟨hp1, hrest⟩
    have hvrest : ∀ p' ∈ rest, p'.2.Nodup :=
      fun p' hp' => hv p' (List.mem_cons_of_mem _ hp')
    simp only [List.map_cons, List.sum_cons]
    by_cases hc : p.1 = q.1
    · obtain ⟨hz1, hz2⟩ := combo_sum_zero rest q value (hc ▸ hp1)
      rw [hz1, sum_if_pair_mem p.2 p.1 q value (hv p (List.mem_cons_self p rest)) hc.symm]
      simp only [comboOpens, List.any_cons] at hz2 ⊢
      by_cases hm : q.2 ∈ p.2 <;> simp [hz2, hc, hm]
    · have hhead : (p.2.map (fun v => if q = (p.1, v) then value else 0)).sum = 0 := by
        apply List.sum_eq_zero
        intro y hy
        rcases List.mem_map.mp hy with ⟨v, hv2, rfl⟩
        have hne : q ≠ (p.1, v) := by
          intro he
          exact hc (by rw [he])
        simp [hne]
      rw [hhead, ih hrest hvrest, zero_add]
      simp only [comboOpens, List.any_cons]
      have hfalse : (decide (p.1 = q.1) && decide (q.2 ∈ p.2)) = false := by
        simp [hc]
      simp only [hfalse, Bool.false_or]

/-- With duplicate-free combinations, the consolidation dict accumulates
exactly the usable fraction of the pair. -/
lemma consolidate_loop_eq_openFraction (shares : Shares) (q : ℕ × ℕ)
    (hnd : ∀ kv ∈ shares, (kv.1.map Prod.fst).Nodup ∧ ∀ p ∈ kv.1, p.2.Nodup) :
    consolidate_loop shares q = openFraction shares q := by
  rw [consolidate_loop_eq, openFraction]
  apply congrArg List.sum
  apply List.map_congr_left
  intro kv hkv
  exact combo_sum_eq_open kv.1 q kv.2 (hnd kv hkv).1 (hnd kv hkv).2

/-- C2 (amended): the consolidated scalar of a `(station, vessel)` pair is
not the plain sum of the joint-share fractions of the combinations opening
the pair, but `1 - min(sum, 1)` — the clamped complement of that usable
fraction (`generate_intervals.py` line 220). -/
theorem c2_amended (shares : Shares) (q : ℕ × ℕ)
    (hnd : ∀ kv ∈ shares, (kv.1.map Prod.fst).Nodup ∧ ∀ p ∈ kv.1, p.2.Nodup) :
    consolidated_final shares q = 1 - min (openFraction shares q) 1 := by
  rw [consolidated_final, consolidate_loop_eq_openFraction shares q hnd]

/-- Witness for the amended C2: the closed form evaluated on `c2_shares`. -/
theorem c2_amended_witness :
    consolidated_final c2_shares (0, 0) = 1 - min (openFraction c2_shares (0, 0)) 1 :=
  c2_amended c2_shares (0, 0) (by decide)

/-- C2 (counterexample): on `c2_shares` the pair `(0, 0)` is open in
combinations carrying fraction `1/4`, yet the consolidated scalar is `3/4`,
so the scalar does not equal the sum of the opening fractions as claimed. -/
theorem c2_counterexample :
    consolidated_final c2_shares (0, 0) = 3/4 ∧ openFraction c2_shares (0, 0) = 1/4 ∧
      consolidated_final c2_shares (0, 0) ≠ openFraction c2_shares (0, 0) := by
  refine ⟨?_, ?_, ?_⟩ <;>
    norm_num [consolidated_final, consolidate_loop, openFraction, comboOpens, c2_shares,
      Prod.mk.injEq, Prod.ext_iff, Prod.fst_zero, Prod.snd_zero]

/-- C3: on `c3_shares` the loop variable shadowing in `consolidate_intervals`
makes `number_of_vessels` equal 1 (the fleet of the last pair's vessel set
`[0]`), not the scenario-wide fleet size 3, so station 0 receives threshold
`max(min(1 - 1/1, 1), 0) = 0` where the claimed formula with the total fleet
gives `max(min(1 - 1/3, 1), 0) = 2/3`. -/
theorem c3_shadowed_fleet :
    consolidate_station_threshold c3_vessels c3_amount c3_shares 0 = 0 ∧
    consolidate_number_of_vessels c3_vessels c3_amount c3_shares = 1 ∧
    (c3_vessels.map c3_amount).sum = 3 ∧
    max (min (1 - consolidate_by_station_loop c3_amount c3_shares 0
      / ((c3_vessels.map c3_amount).sum : ℚ)) 1) 0 = 2/3 := by
  refine ⟨?_, ?_, ?_, ?_⟩ <;>
    norm_num [consolidate_station_threshold, consolidate_number_of_vessels,
      consolidate_shadowed_vessels, consolidate_by_station_loop, c3_vessels, c3_amount,
      c3_shares]

/-- Division distributes over a list sum. -/
lemma list_sum_div (l : List ℚ) (c : ℚ) : (l.map (fun x => x / c)).sum = l.sum / c := by
  induction l with
  | nil => simp
  | cons x xs ih => simp [ih, add_div]

/-- C7: for any run with at least one grouped timestamp, the joint-share
fractions produced by `generate_intervals` sum to exactly 1, and every
consolidated per-pair scalar lies in the interval `[0, 1]`. -/
theorem c7_fractions (counts : List (ShareCombo × ℕ))
    (h : 0 < (counts.map Prod.snd).sum) :
    ((normalize_shares counts).map Prod.snd).sum = 1 ∧
    ∀ q, 0 ≤ consolidated_final (normalize_shares counts) q ∧
      consolidated_final (normalize_shares counts) q ≤ 1 := by
  have hT : (((counts.map Prod.snd).sum : ℕ) : ℚ) ≠ 0 :=
    Nat.cast_ne_zero.mpr h.ne'
  constructor
  · rw [normalize_shares, List.map_map]
    have : (Prod.snd ∘ fun kv : ShareCombo × ℕ =>
        (kv.1, (kv.2 : ℚ) / ((counts.map Prod.snd).sum : ℚ))) =
        fun kv : ShareCombo × ℕ => (kv.2 : ℚ) / ((counts.map Prod.snd).sum : ℚ) := rfl
    rw [this]
    have hmap : (counts.map (fun kv : ShareCombo × ℕ =>
        (kv.2 : ℚ) / ((counts.map Prod.snd).sum : ℚ))) =
        ((counts.map (fun kv : ShareCombo × ℕ => (kv.2 : ℚ))).map
          (fun x => x / ((counts.map Prod.snd).sum : ℚ))) := by
      rw [List.map_map]
      rfl
    rw [hmap, list_sum_div]
    have hcast : (counts.map (fun kv : ShareCombo × ℕ => (kv.2 : ℚ))).sum =
        (((counts.map Prod.snd).sum : ℕ) : ℚ) := by
      rw [show (counts.map (fun kv : ShareCombo × ℕ => (kv.2 : ℚ))) =
        ((counts.map Prod.snd).map (fun n : ℕ => (n : ℚ))) from by rw [List.map_map]; rfl]
      exact (Nat.cast_list_sum _).symm
    rw [hcast, div_self hT]
  · intro q
    have h0 : 0 ≤ consolidate_loop (normalize_shares counts) q := by
      rw [consolidate_loop_eq]
      apply List.sum_nonneg
      intro x hx
      rcases List.mem_map.mp hx with ⟨kv, hkv, rfl⟩
      apply List.sum_nonneg
      intro y hy
      rcases List.mem_map.mp hy with ⟨p, hp, rfl⟩
      apply List.sum_nonneg
      intro z hz
      rcases List.mem_map.mp hz with ⟨v, hv, rfl⟩
      split
      · rcases List.mem_map.mp hkv with ⟨kv0, hkv0, rfl⟩
        apply div_nonneg
        · exact_mod_cast Nat.zero_le _
        · exact_mod_cast Nat.zero_le _
      · exact le_refl 0
    have hmin0 : 0 ≤ min (consolidate_loop (normalize_shares counts) q) 1 :=
      le_min h0 zero_le_one
    have hmin1 : min (consolidate_loop (normalize_shares counts) q) 1 ≤ 1 :=
      min_le_right _ _
    constructor
    · rw [consolidated_final]
      linarith
    · rw [consolidated_final]
      linarith

/-- Witness for C7 on a one-combination count list. -/
theorem c7_witness :
    ((normalize_shares [([(0, [0])], 1)]).map Prod.snd).sum = 1 ∧
    ∀ q, 0 ≤ consolidated_final (normalize_shares [([(0, [0])], 1)]) q ∧
      consolidated_final (normalize_shares [([(0, [0])], 1)]) q ≤ 1 :=
  c7_fractions [([(0, [0])], 1)] (by decide)

/-- Length of a conjunctive filter equals the indicator sum over the first
filter, bridging the constraint sums to assignment counts. -/
lemma length_filter_and {α : Type} (l : List α) (p q : α → Bool) :
    (l.filter (fun a => p a && q a)).length =
      ((l.filter p).map (fun a => b2n (q a))).sum := by
  induction l with
  | nil => rfl
  | cons a l ih =>
    by_cases hp : p a <;> by_cases hq : q a <;>
      simp [List.filter_cons, hp, hq, b2n, ih, Nat.add_comm]

/-- Fleet-cap and one-vessel-per-station constraints imply the assignment
bounds property. -/
lemma bounds_of_x_constraints (sc : Scenario) (x : ℕ → ℕ → Bool)
    (h1 : fleet_cap_ok sc x) (h2 : one_vessel_ok sc x) :
    assignment_within_bounds sc x := by
  constructor
  · intro v hv
    rw [length_filter_and]
    exact h1 v hv
  · intro s hs
    rw [length_filter_and]
    exact h2 s hs

/-- C6: every model built by any of the three variants contains the per-
vessel fleet-cap constraint and the per-station at-most-one constraint
(conjuncts of the respective feasibility predicates), so every feasible
solution of any variant assigns each vessel type to at most `amount` of its
allowed ports and each station at most one allowed vessel type. -/
theorem c6_fleet_cap_all_variants (sc : Scenario) (shares : Shares)
    (cons : ConsShares) (x : ℕ → ℕ → Bool) (yb : ℕ → ℕ → ℕ → ℕ → ℕ → Bool)
    (ym : ℕ → ℚ → ℕ → ℕ → ℕ → Bool) (ys : List (ℕ → ℕ → ℕ → ℕ → Bool)) :
    (feasibleBest sc shares x yb → assignment_within_bounds sc x) ∧
    (feasibleBetter sc cons x ys → assignment_within_bounds sc x) ∧
    (feasibleMore sc x ym → assignment_within_bounds sc x) := by
  refine ⟨fun h => ?_, fun h => ?_, fun h => ?_⟩
  · exact bounds_of_x_constraints sc x h.1 h.2.1
  · exact bounds_of_x_constraints sc x h.2.1 h.2.2.1
  · exact bounds_of_x_constraints sc x h.1 h.2.1

/-- Witness for C6: the empty scenario with the all-false solution is
feasible for the Best-tidal builder and satisfies the assignment bounds. -/
theorem c6_fleet_cap_all_variants_witness :
    assignment_within_bounds sc_empty (fun _ _ => false) :=
  (c6_fleet_cap_all_variants sc_empty [] [] (fun _ _ => false)
    (fun _ _ _ _ _ => false) (fun _ _ _ _ _ => false) []).1
    (by
      refine ⟨?_, ?_, ?_, ?_⟩
      · intro v hv
        simp [sc_empty] at hv
      · intro s hs
        simp [sc_empty] at hs
      · intro s hs
        simp [sc_empty] at hs
      · intro e he
        simp [coverageConstraintsBest, sc_empty] at he)

/-- C4: in the Best-tidal and Many-zones models, every positive-probability
`(availability-state, zone, incident)` combination yields an equality
coverage constraint (present in the built constraint list whether or not an
eligible pair exists); any satisfying solution sets exactly one eligible
variable of that combination to 1, and when no eligible variable exists the
constraint reads `0 = 1`, so no solution satisfies the model at all. -/
theorem c4_coverage_exactly_one_or_infeasible (sc : Scenario) (shares : Shares)
    (k z i : ℕ) (w : ℚ × ℚ) (z' i' : ℕ) :
    (k < shares.length → z ∈ sc.zones → i ∈ sc.incidents →
      0 < sc.probability_by_zone i z →
      (CoverEntryBest.mk k z i (eligPairsBest sc shares k z i) 1
          ∈ coverageConstraintsBest sc shares) ∧
      (∀ y, coverageSatBest sc shares y →
        coverCountBest y ⟨k, z, i, eligPairsBest sc shares k z i, 1⟩ = 1) ∧
      (eligPairsBest sc shares k z i = [] → ∀ y, ¬ coverageSatBest sc shares y)) ∧
    (w ∈ waterlevelsMore sc → z' ∈ sc.zones → i' ∈ sc.incidents →
      0 < sc.probability_by_zone i' z' →
      (CoverEntryMore.mk w z' i' (eligPairsMore sc w.1 z' i') 1
          ∈ coverageConstraintsMore sc) ∧
      (∀ y, coverageSatMore sc y →
        coverCountMore y ⟨w, z', i', eligPairsMore sc w.1 z' i', 1⟩ = 1) ∧
      (eligPairsMore sc w.1 z' i' = [] → ∀ y, ¬ coverageSatMore sc y)) := by
  constructor
  · intro hk hz hi hp
    have hmem : CoverEntryBest.mk k z i (eligPairsBest sc shares k z i) 1
        ∈ coverageConstraintsBest sc shares := by
      rw [coverageConstraintsBest]
      apply List.mem_flatMap.mpr
      refine ⟨k, List.mem_range.mpr hk, ?_⟩
      apply List.mem_flatMap.mpr
      refine ⟨z, hz, ?_⟩
      apply List.mem_map.mpr
      refine ⟨i, List.mem_filter.mpr ⟨hi, by simpa using hp⟩, rfl⟩
    refine ⟨hmem, fun y hy => hy _ hmem, fun hempty y hy => ?_⟩
    have := hy _ hmem
    rw [coverCountBest] at this
    simp [hempty] at this
  · intro hw hz hi hp
    have hmem : CoverEntryMore.mk w z' i' (eligPairsMore sc w.1 z' i') 1
        ∈ coverageConstraintsMore sc := by
      rw [coverageConstraintsMore]
      apply List.mem_flatMap.mpr
      refine ⟨w, hw, ?_⟩
      apply List.mem_flatMap.mpr
      refine ⟨z', hz, ?_⟩
      apply List.mem_map.mpr
      refine ⟨i', List.mem_filter.mpr ⟨hi, by simpa using hp⟩, rfl⟩
    refine ⟨hmem, fun y hy => hy _ hmem, fun hempty y hy => ?_⟩
    have := hy _ hmem
    rw [coverCountMore] at this
    simp [hempty] at this

/-- Witness for C4: in `sc_c4` (no stations, no vessels, one positive
`(zone, incident)` combination) both builders produce an unsatisfiable
coverage system. -/
theorem c4_coverage_exactly_one_or_infeasible_witness :
    (∀ y, ¬ coverageSatBest sc_c4 shares_c4 y) ∧ (∀ y, ¬ coverageSatMore sc_c4 y) := by
  have hbest := (c4_coverage_exactly_one_or_infeasible sc_c4 shares_c4 0 0 0 (0, 1) 0 0).1
    (by norm_num [shares_c4]) (by simp [sc_c4]) (by simp [sc_c4])
    (by norm_num [sc_c4])
  have hmore := (c4_coverage_exactly_one_or_infeasible sc_c4 shares_c4 0 0 0 (0, 1) 0 0).2
    (by norm_num [waterlevelsMore, sortedDedup, insertThreshold, intervalsOf, sc_c4])
    (by simp [sc_c4]) (by simp [sc_c4]) (by norm_num [sc_c4])
  refine ⟨hbest.2.2 ?_, hmore.2.2 ?_⟩
  · rfl
  · rfl

/-- C10: a vessel type with negative reach (including the `-1` sentinel for
missing range data) is added by `reachable_for_zones` to no zone's
reachability set — the nonnegative great-circle distance can never be at most
`reach / 2 < 0` — and consequently it is never an eligible responder: every
y-variable eligibility predicate of the three model variants is false for it,
and in the evaluator a station to which it is assigned contributes no
response-time candidate. -/
theorem c10_negative_reach_unreachable (sc : Scenario) (v : ℕ)
    (hdist : ∀ s z, 0 ≤ sc.distance_to s z) (hreach : sc.reach v < 0)
    (hgen : sc.reachable_from_by = reachable_for_zones sc) :
    (∀ z s, reachable_for_zones sc z s v = false) ∧
    (∀ shares k s z i, eligBest sc shares k s v z i = false) ∧
    (∀ cons a s z i, eligBetter sc cons a s v z i = false) ∧
    (∀ a s z i, eligMore sc a s v z i = false) ∧
    (∀ assignment z i p, assignment p.1 = some v →
      evalCandidate sc assignment z i p = none) := by
  have hfalse : ∀ z s, reachable_for_zones sc z s v = false := by
    intro z s
    rw [reachable_for_zones]
    simp only [decide_eq_false_iff_not, not_le]
    calc sc.reach v / 2 < 0 := by linarith
    _ ≤ sc.distance_to s z := hdist s z
  refine ⟨hfalse, ?_, ?_, ?_, ?_⟩
  · intro shares k s z i
    rw [eligBest, hgen, hfalse z s]
    simp
  · intro cons a s z i
    rw [eligBetter, hgen, hfalse z s]
    simp
  · intro a s z i
    rw [eligMore, hgen, hfalse z s]
    simp
  · intro assignment z i p hassign
    rw [evalCandidate, hassign]
    simp only [hgen, hfalse z p.1]
    split <;> rfl

/-- Witness for C10 on `sc_c10`, whose vessel 0 carries reach `-1`. -/
theorem c10_negative_reach_unreachable_witness :
    (∀ z s, reachable_for_zones sc_c10 z s 0 = false) ∧
    (∀ shares k s z i, eligBest sc_c10 shares k s 0 z i = false) ∧
    (∀ cons a s z i, eligBetter sc_c10 cons a s 0 z i = false) ∧
    (∀ a s z i, eligMore sc_c10 a s 0 z i = false) ∧
    (∀ assignment z i p, assignment p.1 = some 0 →
      evalCandidate sc_c10 assignment z i p = none) :=
  c10_negative_reach_unreachable sc_c10 0 (fun s z => by norm_num [sc_c10])
    (by norm_num [sc_c10])
    (by
      funext z s v
      norm_num [sc_c10, reachable_for_zones])

/-- Incrementing a combination count raises the grouped total by one. -/
lemma bump_totalCount (m : List (ShareCombo × ℕ)) (k : ShareCombo) :
    totalCount (bump m k) = totalCount m + 1 := by
  induction m with
  | nil => rfl
  | cons e rest ih =>
    rw [bump]
    split
    · simp [totalCount]
      ring
    · simp only [totalCount, List.map_cons, List.sum_cons] at ih ⊢
      rw [ih]
      ring

/-- C9: the timestamp-scanning loop of `generate_intervals` raises a
processing error whenever some processed timestamp opens no station at all,
and a run that completes normally both had an open station at every
timestamp and counted every timestamp into the grouped totals — no timestamp
is silently skipped or tolerated. -/
theorem c9_no_open_station_raises (stations : List TStation)
    (vessels : List (ℕ × ℚ)) (ts : List (ℕ → Option ℚ)) (line : ℕ)
    (acc : List (ShareCombo × ℕ)) :
    ((∃ t ∈ ts, openedAt stations vessels t = []) →
      ∃ msg, generate_intervals_loop stations vessels ts line acc = .error msg) ∧
    (∀ m, generate_intervals_loop stations vessels ts line acc = .ok m →
      (∀ t ∈ ts, openedAt stations vessels t ≠ []) ∧
      totalCount m = totalCount acc + ts.length) := by
  induction ts generalizing line acc with
  | nil =>
    refine ⟨?_, ?_⟩
    · rintro ⟨t, ht, -⟩
      exact absurd ht (List.not_mem_nil t)
    · intro m hm
      rw [generate_intervals_loop] at hm
      cases hm
      exact ⟨fun t ht => absurd ht (List.not_mem_nil t), by simp⟩
  | cons t rest ih =>
    by_cases hopen : openedAt stations vessels t = []
    · refine ⟨?_, ?_⟩
      · intro _
        refine ⟨"No stations opened at line " ++ toString line ++ ", skipping", ?_⟩
        rw [generate_intervals_loop]
        simp [hopen]
      · intro m hm
        rw [generate_intervals_loop] at hm
        simp [hopen] at hm
    · have hne : (openedAt stations vessels t).isEmpty = false := by
        simpa [List.isEmpty_iff] using hopen
      refine ⟨?_, ?_⟩
      · rintro ⟨t', ht', hempty⟩
        rcases List.mem_cons.mp ht' with rfl | ht'
        · exact absurd hempty hopen
        · rcases (ih (line + 1) (bump acc (sortByFst (openedAt stations vessels t)))).1
            ⟨t', ht', hempty⟩ with ⟨msg, hmsg⟩
          refine ⟨msg, ?_⟩
          rw [generate_intervals_loop]
          simpa [hne] using hmsg
      · intro m hm
        rw [generate_intervals_loop] at hm
        simp only [hne] at hm
        rcases (ih (line + 1) (bump acc (sortByFst (openedAt stations vessels t)))).2 m
          (by simpa using hm) with ⟨hall, hcount⟩
        refine ⟨?_, ?_⟩
        · intro t' ht'
          rcases List.mem_cons.mp ht' with rfl | ht'
          · exact hopen
          · exact hall t' ht'
        · rw [hcount, bump_totalCount]
          simp [List.length_cons]
          ring

/-- Witness for C9: a one-timestamp run that succeeds, opening station 0 for
vessel 0 and counting exactly one grouped timestamp. -/
theorem c9_no_open_station_raises_witness :
    (∀ t ∈ ts_c9, openedAt stations_c9 vessels_c9 t ≠ []) ∧
    totalCount [([(0, [0])], 1)] = totalCount [] + ts_c9.length := by
  have h1 : station_water_level ⟨0, 0, [0, 1], fun _ => 1⟩ (fun _ => some 100) =
      some 100 := by
    norm_num [station_water_level, usedLevels]
  have h2 : openedAt stations_c9 vessels_c9 (fun _ => some 100) = [(0, [0])] := by
    rw [openedAt, stations_c9, vessels_c9]
    simp only [List.filterMap_cons, List.filterMap_nil, h1]
    norm_num [sortNat, insertNat]
  have h3 : generate_intervals_loop stations_c9 vessels_c9 ts_c9 1 [] =
      .ok [([(0, [0])], 1)] := by
    rw [ts_c9, generate_intervals_loop]
    simp only [h2]
    norm_num [generate_intervals_loop, sortByFst, insertPair, bump]
  exact (c9_no_open_station_raises stations_c9 vessels_c9 ts_c9 1 []).2
    [([(0, [0])], 1)] h3

/-- Splitting `pairwise` of a threshold list at an interior element. -/
lemma intervalsOf_append : ∀ (A : List ℚ) (c : ℚ) (ys : List ℚ),
    intervalsOf (A ++ c :: ys) = intervalsOf (A ++ [c]) ++ intervalsOf (c :: ys) := by
  intro A
  induction A with
  | nil =>
    intro c ys
    rfl
  | cons x A' ih =>
    intro c ys
    cases A' with
    | nil => rfl
    | cons x' A'' =>
      show (x, x') :: intervalsOf ((x' :: A'') ++ c :: ys) =
        ((x, x') :: intervalsOf ((x' :: A'') ++ [c])) ++ intervalsOf (c :: ys)
      exact congrArg (List.cons (x, x')) (ih c ys)

/-- Raising the interval lower bound preserves eligibility: a pair open at
threshold `a` stays open at any `t ≥ a`, and the remaining conditions do not
depend on the interval. -/
lemma eligBetter_mono (sc : Scenario) (cons : ConsShares) (a t : ℚ) (hat : a ≤ t)
    (s v z i : ℕ) (h : eligBetter sc cons a s v z i = true) :
    eligBetter sc cons t s v z i = true := by
  rw [eligBetter] at h ⊢
  simp only [Bool.and_eq_true, decide_eq_true_eq] at h ⊢
  obtain ⟨⟨⟨⟨h1, h2⟩, h3⟩, h4⟩, h5⟩ := h
  refine ⟨⟨⟨⟨h1, h2⟩, ?_⟩, h4⟩, h5⟩
  rw [openedPairs] at h3 ⊢
  rcases List.mem_map.mp h3 with ⟨e, he, heq⟩
  rcases List.mem_filter.mp he with ⟨hmem, hle⟩
  apply List.mem_map.mpr
  refine ⟨e, List.mem_filter.mpr ⟨hmem, ?_⟩, heq⟩
  simp only [decide_eq_true_eq] at hle ⊢
  linarith

/-- Guarding a variable map by coarse eligibility and testing refined
eligibility is the same test as coarse eligibility of the original map. -/
lemma guard_bool_eq (sc : Scenario) (cons : ConsShares) (a t : ℚ) (hat : a ≤ t)
    (yj : ℕ → ℕ → ℕ → ℕ → Bool) (s v z i : ℕ) :
    (eligBetter sc cons t s v z i && (yj s v z i && eligBetter sc cons a s v z i)) =
      (eligBetter sc cons a s v z i && yj s v z i) := by
  by_cases ha : eligBetter sc cons a s v z i = true
  · rw [ha, eligBetter_mono sc cons a t hat s v z i ha]
    cases yj s v z i <;> rfl
  · have ha' : eligBetter sc cons a s v z i = false := by
      cases h : eligBetter sc cons a s v z i
      · rfl
      · exact absurd h ha
    rw [ha']
    cases eligBetter sc cons t s v z i <;> cases yj s v z i <;> rfl

/-- A conjunction indicator is bounded by the indicator of one conjunct. -/
lemma b2n_and_le (e y : Bool) : b2n (e && y) ≤ b2n e := by
  cases e <;> cases y <;> simp [b2n]

/-- Coverage count of the guarded map at the refined interval equals the
coarse coverage count. -/
lemma coverCount_guard (sc : Scenario) (cons : ConsShares) (a t : ℚ) (hat : a ≤ t)
    (yj : ℕ → ℕ → ℕ → ℕ → Bool) (z i : ℕ) :
    coverCountBetter sc cons t
      (fun s v z i => yj s v z i && eligBetter sc cons a s v z i) z i =
      coverCountBetter sc cons a yj z i := by
  rw [coverCountBetter, coverCountBetter]
  apply congrArg List.sum
  apply List.map_congr_left
  intro sv _
  rw [guard_bool_eq sc cons a t hat yj sv.1 sv.2 z i]

/-- Per-pair count of the guarded map at the refined interval equals the
coarse per-pair count. -/
lemma pairCount_guard (sc : Scenario) (cons : ConsShares) (a t : ℚ) (hat : a ≤ t)
    (yj : ℕ → ℕ → ℕ → ℕ → Bool) (s v : ℕ) :
    pairCountBetter sc cons t
      (fun s v z i => yj s v z i && eligBetter sc cons a s v z i) s v =
      pairCountBetter sc cons a yj s v := by
  rw [pairCountBetter, pairCountBetter]
  apply congrArg List.sum
  apply List.map_congr_left
  intro zi _
  rw [guard_bool_eq sc cons a t hat yj s v zi.1 zi.2]

/-- Set variables of a pair never exceed its existing variables. -/
lemma pairCount_le_pairVars (sc : Scenario) (cons : ConsShares) (a : ℚ)
    (yk : ℕ → ℕ → ℕ → ℕ → Bool) (s v : ℕ) :
    pairCountBetter sc cons a yk s v ≤ pairVarsBetter sc cons a s v := by
  rw [pairCountBetter, pairVarsBetter]
  apply List.sum_le_sum
  intro zi _
  exact b2n_and_le _ _

/-- Across the whole model, set variables of a pair never exceed its
existing variables. -/
lemma ySel_le_numY (sc : Scenario) (cons : ConsShares) :
    ∀ (W : List (ℚ × ℚ)) (ys : List (ℕ → ℕ → ℕ → ℕ → Bool)),
      ys.length = W.length → ∀ s v,
      ySelBetterW sc cons W ys s v ≤ numYBetterW sc cons W s v := by
  intro W
  induction W with
  | nil =>
    intro ys h s v
    simp [ySelBetterW, numYBetterW]
  | cons w W' ih =>
    intro ys h s v
    cases ys with
    | nil => simp at h
    | cons yk ys' =>
      rw [ySelBetterW, numYBetterW]
      simp only [List.zip_cons_cons, List.map_cons, List.sum_cons]
      exact Nat.add_le_add (pairCount_le_pairVars sc cons w.1 yk s v)
        (ih ys' (by simpa using h) s v)

/-- Splitting an interval at `t` preserves the objective: the refined
intervals `(a, t)` and `(t, b)`, responding with the same choices, together
contribute exactly the coarse interval's objective term. -/
lemma objTerm_split (sc : Scenario) (cons : ConsShares) (a t b : ℚ) (hat : a ≤ t)
    (yj : ℕ → ℕ → ℕ → ℕ → Bool) :
    objBetterTerm sc cons (a, t) yj +
      objBetterTerm sc cons (t, b)
        (fun s v z i => yj s v z i && eligBetter sc cons a s v z i) =
      objBetterTerm sc cons (a, b) yj := by
  rw [objBetterTerm, objBetterTerm, objBetterTerm, ← List.sum_map_add]
  apply congrArg List.sum
  apply List.map_congr_left
  intro k _
  rw [guard_bool_eq sc cons a t hat yj k.1.1 k.1.2 k.2.1 k.2.2]
  simp only [show ((a, t).1 : ℚ) = a from rfl, show ((a, t).2 : ℚ) = t from rfl,
    show ((t, b).1 : ℚ) = t from rfl, show ((t, b).2 : ℚ) = b from rfl,
    show ((a, b).1 : ℚ) = a from rfl, show ((a, b).2 : ℚ) = b from rfl]
  by_cases h : (eligBetter sc cons a k.1.1 k.1.2 k.2.1 k.2.2
      && yj k.1.1 k.1.2 k.2.1 k.2.2) = true
  · rw [if_pos h, if_pos h, if_pos h]
    ring
  · rw [if_neg h, if_neg h, if_neg h]
    ring

/-- Core refinement mapping: a feasible Better-tidal solution of the coarse
interval list stays feasible, with identical objective, when the interval
`(a, b)` is split at `t` and the second half copies the first interval's
choices guarded by coarse eligibility. -/
lemma c8_core (sc : Scenario) (cons : ConsShares) (P Q : List (ℚ × ℚ)) (a t b : ℚ)
    (hat : a ≤ t) (htb : t ≤ b) (x : ℕ → ℕ → Bool)
    (yP yQ : List (ℕ → ℕ → ℕ → ℕ → Bool)) (yj : ℕ → ℕ → ℕ → ℕ → Bool)
    (hlenP : yP.length = P.length) (hlenQ : yQ.length = Q.length)
    (hfeas : feasibleBetterW sc cons (P ++ (a, b) :: Q) x (yP ++ yj :: yQ)) :
    feasibleBetterW sc cons (P ++ (a, t) :: (t, b) :: Q) x
      (yP ++ yj :: (fun s v z i => yj s v z i && eligBetter sc cons a s v z i) :: yQ) ∧
    objBetterW sc cons (P ++ (a, t) :: (t, b) :: Q)
      (yP ++ yj :: (fun s v z i => yj s v z i && eligBetter sc cons a s v z i) :: yQ) =
      objBetterW sc cons (P ++ (a, b) :: Q) (yP ++ yj :: yQ) := by
  obtain ⟨hlen, hfleet, hone, hcons, hcov⟩ := hfeas
  set yg : ℕ → ℕ → ℕ → ℕ → Bool :=
    fun s v z i => yj s v z i && eligBetter sc cons a s v z i with hyg
  have hzip1 : (P ++ (a, b) :: Q).zip (yP ++ yj :: yQ) =
      P.zip yP ++ ((a, b), yj) :: Q.zip yQ := by
    rw [List.zip_append hlenP.symm, List.zip_cons_cons]
  have hzip2 : (P ++ (a, t) :: (t, b) :: Q).zip (yP ++ yj :: yg :: yQ) =
      P.zip yP ++ ((a, t), yj) :: ((t, b), yg) :: Q.zip yQ := by
    rw [List.zip_append hlenP.symm, List.zip_cons_cons, List.zip_cons_cons]
  refine ⟨⟨?_, hfleet, hone, ?_, ?_⟩, ?_⟩
  · simp only [List.length_append, List.length_cons, hlenP, hlenQ]
  · -- consistency
    intro s hs v hv hallow
    have hsel1 := hcons s hs v hv hallow
    by_cases hx : x v s
    · rw [hx]
      have h2 := ySel_le_numY sc cons (P ++ (a, t) :: (t, b) :: Q) (yP ++ yj :: yg :: yQ)
        (by simp only [List.length_append, List.length_cons, hlenP, hlenQ]) s v
      simpa [b2n] using h2
    · have hx' : x v s = false := by
        cases h : x v s
        · rfl
        · exact absurd h hx
      rw [hx'] at hsel1 ⊢
      simp only [b2n, if_neg (by simp : ¬ (false : Bool) = true), Nat.mul_zero,
        Nat.le_zero] at hsel1 ⊢
      rw [ySelBetterW, hzip1] at hsel1
      rw [ySelBetterW, hzip2]
      simp only [List.map_append, List.map_cons, List.sum_append, List.sum_cons] at hsel1 ⊢
      rw [show pairCountBetter sc cons ((t, b), yg).1.1 ((t, b), yg).2 s v =
        pairCountBetter sc cons a yj s v from pairCount_guard sc cons a t hat yj s v]
      omega
  · -- coverage
    intro wy hwy z hz i hi hp
    rw [hzip2] at hwy
    rcases List.mem_append.mp hwy with hwy | hwy
    · exact hcov wy (by rw [hzip1]; exact List.mem_append_left _ hwy) z hz i hi hp
    · rcases List.mem_cons.mp hwy with rfl | hwy
      · exact hcov ((a, b), yj)
          (by rw [hzip1]; exact List.mem_append_right _ (List.mem_cons_self _ _))
          z hz i hi hp
      · rcases List.mem_cons.mp hwy with rfl | hwy
        · show coverCountBetter sc cons (t, b).1 yg z i = 1
          rw [show ((t, b).1 : ℚ) = t from rfl, hyg,
            coverCount_guard sc cons a t hat yj z i]
          exact hcov ((a, b), yj)
            (by rw [hzip1]; exact List.mem_append_right _ (List.mem_cons_self _ _))
            z hz i hi hp
        · exact hcov wy
            (by rw [hzip1]
                exact List.mem_append_right _ (List.mem_cons_of_mem _ hwy))
            z hz i hi hp
  · -- objective
    rw [objBetterW, objBetterW, hzip1, hzip2]
    simp only [List.map_append, List.map_cons, List.sum_append, List.sum_cons]
    rw [show objBetterTerm sc cons ((a, t), yj).1 ((a, t), yj).2 +
        (objBetterTerm sc cons ((t, b), yg).1 ((t, b), yg).2 +
          ((Q.zip yQ).map (fun wy => objBetterTerm sc cons wy.1 wy.2)).sum) =
        (objBetterTerm sc cons (a, t) yj + objBetterTerm sc cons (t, b) yg) +
          ((Q.zip yQ).map (fun wy => objBetterTerm sc cons wy.1 wy.2)).sum from by ring]
    rw [hyg, objTerm_split sc cons a t b hat yj]

/-- C8: for the Better-tidal variant, inserting one additional threshold `t`
into the waterlevel threshold list (splitting the interval `(a, b)` into the
adjacent intervals `(a, t)` and `(t, b)`) never increases the optimal
objective: every assignment `x` feasible with some response choice under the
coarse interval list is feasible with a response choice under the refinement
whose objective value is no larger. -/
theorem c8_better_tidal_refinement (sc : Scenario) (cons : ConsShares) (A B : List ℚ) (a t b : ℚ)
    (hat : a ≤ t) (htb : t ≤ b) (x : ℕ → ℕ → Bool)
    (ys : List (ℕ → ℕ → ℕ → ℕ → Bool))
    (hfeas : feasibleBetterW sc cons (intervalsOf (A ++ a :: b :: B)) x ys) :
    ∃ ys', feasibleBetterW sc cons (intervalsOf (A ++ a :: t :: b :: B)) x ys' ∧
      objBetterW sc cons (intervalsOf (A ++ a :: t :: b :: B)) ys' ≤
        objBetterW sc cons (intervalsOf (A ++ a :: b :: B)) ys := by
  have hW1 : intervalsOf (A ++ a :: b :: B) =
      intervalsOf (A ++ [a]) ++ (a, b) :: intervalsOf (b :: B) := by
    rw [intervalsOf_append A a (b :: B)]
    rfl
  have hW2 : intervalsOf (A ++ a :: t :: b :: B) =
      intervalsOf (A ++ [a]) ++ (a, t) :: (t, b) :: intervalsOf (b :: B) := by
    rw [intervalsOf_append A a (t :: b :: B)]
    rfl
  have hlen : ys.length = (intervalsOf (A ++ a :: b :: B)).length := hfeas.1
  rw [hW1] at hlen
  simp only [List.length_append, List.length_cons] at hlen
  have hdlen : (ys.drop (intervalsOf (A ++ [a])).length).length =
      (intervalsOf (b :: B)).length + 1 := by
    rw [List.length_drop]
    omega
  cases hdrop : ys.drop (intervalsOf (A ++ [a])).length with
  | nil =>
    rw [hdrop] at hdlen
    simp at hdlen
  | cons yj yQ =>
    have hsplit : ys = ys.take (intervalsOf (A ++ [a])).length ++ yj :: yQ := by
      conv_lhs => rw [← List.take_append_drop (intervalsOf (A ++ [a])).length ys]
      rw [hdrop]
    have hlenP : (ys.take (intervalsOf (A ++ [a])).length).length =
        (intervalsOf (A ++ [a])).length := by
      rw [List.length_take]
      omega
    have hlenQ : yQ.length = (intervalsOf (b :: B)).length := by
      rw [hdrop] at hdlen
      simpa using hdlen
    rw [hW1, hsplit] at hfeas
    obtain ⟨hf2, hobj⟩ := c8_core sc cons (intervalsOf (A ++ [a])) (intervalsOf (b :: B))
      a t b hat htb x (ys.take (intervalsOf (A ++ [a])).length) yQ yj hlenP hlenQ hfeas
    rw [hW2, hW1, hsplit]
    exact ⟨ys.take (intervalsOf (A ++ [a])).length ++
      yj :: (fun s v z i => yj s v z i && eligBetter sc cons a s v z i) :: yQ,
      hf2, le_of_eq hobj⟩

/-- Witness for C8: a one-station model feasible under thresholds
`{0, 1}` maps to the refinement inserting `1/2`. -/
theorem c8_better_tidal_refinement_witness :
    ∃ ys', feasibleBetterW sc_c8 cons_c8
        (intervalsOf ([] ++ (0 : ℚ) :: (1/2 : ℚ) :: (1 : ℚ) :: []))
        (fun _ _ => true) ys' ∧
      objBetterW sc_c8 cons_c8 (intervalsOf ([] ++ (0 : ℚ) :: (1/2 : ℚ) :: (1 : ℚ) :: [])) ys' ≤
        objBetterW sc_c8 cons_c8 (intervalsOf ([] ++ (0 : ℚ) :: (1 : ℚ) :: []))
          [fun _ _ _ _ => true] := by
  apply c8_better_tidal_refinement sc_c8 cons_c8 [] [] 0 (1/2) 1 (by norm_num) (by norm_num)
    (fun _ _ => true) [fun _ _ _ _ => true]
  refine ⟨rfl, ?_, ?_, ?_, ?_⟩
  · intro v hv
    norm_num [sc_c8, b2n]
  · intro s hs
    norm_num [sc_c8, b2n]
  · intro s hs v hv hallow
    have := ySel_le_numY sc_c8 cons_c8
      (intervalsOf ([] ++ (0 : ℚ) :: (1 : ℚ) :: [])) [fun _ _ _ _ => true]
      (by norm_num [intervalsOf]) s v
    simpa [b2n] using this
  · intro wy hwy z hz i hi hp
    have hwy' : wy = ((0, 1), fun _ _ _ _ => true) := by
      simpa [intervalsOf] using hwy
    have hz' : z = 0 := by simpa [sc_c8] using hz
    have hi' : i = 0 := by simpa [sc_c8] using hi
    subst hwy' hz' hi'
    norm_num [coverCountBetter, stationsVessels, eligBetter, openedPairs, sc_c8,
      cons_c8, b2n]

end RCA
